import Mathlib

/-!
# A shallow embedding of the `scrape` management command

Definitions translate `products/management/commands/scrape.py`: the field
cleaners (`clean_price`, `clean_name_brand`, `clean_flavours`, `clean_volumes`,
`clean_strengths`, `clean_ratings`, `get_salt`), the CSV sink
(`csv_append_row`, `create_csv`, `start_scrape`, the supplier loop of
`handle`), and the listing-page crawl (`access_page_products_list`).
Python strings are modelled as `String` / `List Char`; a Python function that
can return `None` returns an `Option` (or `CleanResult.sentinel`), and an
uncaught Python exception is `CleanResult.thrown`.
-/

namespace Scrape

/-- Lowercase every character; models Python `str.lower()` on the ASCII text
the scraper handles (`Char.toLower` lowercases exactly the ASCII letters). -/
def lowerChars (l : List Char) : List Char := l.map Char.toLower

/-- `str.lower()` at `String` level. -/
def strLower (s : String) : String := ⟨lowerChars s.data⟩

/-- Python `str.strip()`: drop whitespace from both ends. -/
def trimChars (l : List Char) : List Char :=
  ((l.dropWhile Char.isWhitespace).reverse.dropWhile Char.isWhitespace).reverse

/-- `str.strip()` at `String` level. -/
def strTrim (s : String) : String := ⟨trimChars s.data⟩

/-- Python's `n in h` on strings: `n` occurs contiguously in `h`. -/
def containsSub : List Char → List Char → Bool
  | n, [] => n.isPrefixOf ([] : List Char)
  | n, c :: t => n.isPrefixOf (c :: t) || containsSub n t

/-- `n in h` at `String` level. -/
def strContains (n h : String) : Bool := containsSub n.data h.data

/-- Value of a list of ASCII digits read in base 10. -/
def digitsVal (l : List Char) : Nat :=
  l.foldl (fun a c => 10 * a + (c.toNat - '0'.toNat)) 0

/-- Models Python `int(s)` applied to a string: surrounding whitespace is
ignored, then an optional sign followed by one or more ASCII digits; any other
shape raises `ValueError`, modelled as `none`. (Python additionally accepts
underscore digit grouping and non-ASCII decimal digits; neither shape occurs
in this scraper's inputs.) -/
def pyInt (s : String) : Option Int :=
  match trimChars s.data with
  | '+' :: ds => if !ds.isEmpty && ds.all Char.isDigit then some (digitsVal ds) else none
  | '-' :: ds => if !ds.isEmpty && ds.all Char.isDigit then some (-(digitsVal ds : Int)) else none
  | ds => if !ds.isEmpty && ds.all Char.isDigit then some (digitsVal ds) else none

/-- `re.sub(lit, '', s, flags=re.IGNORECASE)` for a literal pattern `lit`:
remove every leftmost non-overlapping case-insensitive occurrence, scanning
left to right. `skip` counts characters of a just-matched occurrence that
remain to be consumed without being emitted. -/
def stripLitCIAux (pat : List Char) : Nat → List Char → List Char
  | _, [] => []
  | skip + 1, _ :: rest => stripLitCIAux pat skip rest
  | 0, c :: rest =>
    if (lowerChars pat).isPrefixOf (lowerChars (c :: rest)) then
      stripLitCIAux pat (pat.length - 1) rest
    else c :: stripLitCIAux pat 0 rest

/-- The full case-insensitive literal substitution. -/
def stripLitCI (pat l : List Char) : List Char := stripLitCIAux pat 0 l

/-- Splitting on every character satisfying `p`, keeping empty pieces: the
behaviour of `re.split(',', s)` and `re.split(',|/', s)`. -/
def splitOnPred (p : Char → Bool) : List Char → List (List Char)
  | [] => [[]]
  | c :: rest =>
    if p c then [] :: splitOnPred p rest
    else
      match splitOnPred p rest with
      | [] => [[c]]
      | t :: ts => (c :: t) :: ts

/-- The scan behind Python's `h.rfind(n)`: the last index `i < k` at which
`n` occurs as a substring of `h`, if any. -/
def rfindAux (n h : List Char) (k : Nat) : Option Nat :=
  (List.range k).foldl
    (fun acc i => if n.isPrefixOf (h.drop i) then some i else acc) none

/-- `h.rfind(n)` of Python: the highest index at which `n` occurs as a
substring of `h` (`none` for Python's `-1`). -/
def rfindSub (n h : List Char) : Option Nat :=
  rfindAux n h (h.length + 1)

/-- Result of a field cleaner: a cleaned value, Python `None` (the failure
sentinel; for pair-returning cleaners, `None, None`), or an uncaught Python
exception. -/
inductive CleanResult (α : Type) where
  | thrown : CleanResult α
  | sentinel : CleanResult α
  | ok : α → CleanResult α
deriving DecidableEq, Repr

/-- `Command.CSV_HEADERS`: the 13 output columns, in order. -/
def CSV_HEADERS : List String :=
  ["name", "brand", "flavours", "volumes", "vg", "strengths", "is_shortfill",
   "is_salt_nic", "purchase_url", "image_url", "price", "rating", "num_ratings"]

/-- `Command.CSV_MULTIVAL_SEP`. -/
def CSV_MULTIVAL_SEP : String := "/"

/-! ## Field cleaners -/

/-- `Command.clean_price`, on the text of the `text-price` element: reject
"from" listings, then take the first `\d+\.\d+` match. At any start position
the digit run before the dot is maximal (a shorter run would be followed by a
digit, not `'.'`), so the regex scan reduces to trying each start position. -/
def matchDecimalAt (l : List Char) : Option (List Char) :=
  let d := l.takeWhile Char.isDigit
  match l.drop d.length with
  | '.' :: r =>
    let f := r.takeWhile Char.isDigit
    if !d.isEmpty && !f.isEmpty then some (d ++ '.' :: f) else none
  | _ => none

/-- First (leftmost) match of `\d+\.\d+`. -/
def findDecimal : List Char → Option (List Char)
  | [] => none
  | c :: rest => (matchDecimalAt (c :: rest)).orElse fun _ => findDecimal rest

/-- Source: `Command.clean_price`. -/
def clean_price (text : String) : Option String :=
  let t := lowerChars text.data
  if containsSub "from".data t then none
  else
    match findDecimal t with
    | none => none
    | some m => some ⟨m⟩

/-- The shapes of the regular expressions in `Command.REMOVE_CRITERIA`:
case-insensitive literal text (every substitution passes `re.IGNORECASE`),
`\d+ml`, `\d{2}/\d{2}` and `- \d+ml`. -/
inductive Pat where
  | lit : List Char → Pat
  | digitsMl : Pat
  | twoDigitPair : Pat
  | dashDigitsMl : Pat

/-- Length matched by a pattern at the head of `l`, if any. For `\d+ml` the
digit run is maximal: backtracking to a shorter run cannot help, because the
character after a shorter run is another digit, never `'m'`. -/
def patMatchAt : Pat → List Char → Option Nat
  | .lit p, l =>
    if (lowerChars p).isPrefixOf (lowerChars l) then some p.length else none
  | .digitsMl, l =>
    let d := (l.takeWhile Char.isDigit).length
    if d ≥ 1 && (lowerChars "ml".data).isPrefixOf (lowerChars (l.drop d)) then
      some (d + 2)
    else none
  | .twoDigitPair, l =>
    match l with
    | a :: b :: s :: c :: d :: _ =>
      if a.isDigit && b.isDigit && s == '/' && c.isDigit && d.isDigit then some 5 else none
    | _ => none
  | .dashDigitsMl, l =>
    match l with
    | '-' :: ' ' :: rest =>
      let d := (rest.takeWhile Char.isDigit).length
      if d ≥ 1 && (lowerChars "ml".data).isPrefixOf (lowerChars (rest.drop d)) then
        some (d + 4)
      else none
    | _ => none

/-- `re.sub(pat, '', s, flags=re.IGNORECASE)`: remove every leftmost
non-overlapping match, scanning left to right (none of the source's patterns
can match the empty string). `skip` counts characters of a just-matched
occurrence that remain to be consumed without being emitted. -/
def reSubAllAux (p : Pat) : Nat → List Char → List Char
  | _, [] => []
  | skip + 1, _ :: rest => reSubAllAux p skip rest
  | 0, c :: rest =>
    match patMatchAt p (c :: rest) with
    | some k => reSubAllAux p (k - 1) rest
    | none => c :: reSubAllAux p 0 rest

/-- The full substitution for one pattern. -/
def reSubAll (p : Pat) (l : List Char) : List Char := reSubAllAux p 0 l

/-- `Command.REMOVE_CRITERIA['raw_name']`, in order. -/
def REMOVE_RAW_NAME : List Pat :=
  [.lit "eliquid".data, .lit "e-liquid".data, .lit "hybrid salt".data,
   .lit "nic salt".data, .lit "shortfill".data, .digitsMl]

/-- `Command.REMOVE_CRITERIA['raw_brand']`, in order. -/
def REMOVE_RAW_BRAND : List Pat :=
  [.lit "nic salts".data, .twoDigitPair, .dashDigitsMl, .digitsMl, .lit "any tank".data]

/-- The `for criterion in self.REMOVE_CRITERIA[...]` loop: apply each
substitution in order. -/
def applyRemoveCriteria (pats : List Pat) (l : List Char) : List Char :=
  pats.foldl (fun acc p => reSubAll p acc) l

/-- `' '.join(s.split())` of the source: split on whitespace runs, drop the
empties, rejoin with single spaces. -/
def collapseSpaces (l : List Char) : String :=
  String.intercalate " "
    (((splitOnPred Char.isWhitespace l).map fun t => (⟨t⟩ : String)).filter (· ≠ ""))

/-- Source: `Command.clean_name_brand`, on the title text: split at the last
occurrence of the substring "by" in the lowercased title, then strip the
remove-criteria patterns from each half and collapse whitespace. -/
def clean_name_brand (text : String) : Option (String × String) :=
  match rfindSub "by".data (lowerChars text.data) with
  | none => none
  | some by_idx =>
    let raw_name := text.data.take by_idx
    let raw_brand := text.data.drop (by_idx + 2)
    some (collapseSpaces (applyRemoveCriteria REMOVE_RAW_NAME raw_name),
          collapseSpaces (applyRemoveCriteria REMOVE_RAW_BRAND raw_brand))

/-- The `<dt title="Eliquid Flavours">` element, as `clean_flavours` uses it:
the only access is `find_next_sibling('dd')`, so the element is modelled by
the text of that sibling, `none` when no `<dd>` sibling follows. -/
structure FlavoursDt where
  ddText : Option String
deriving DecidableEq, Repr

/-- The `re.split(',|/', s)` plus per-piece `strip()` of `clean_flavours`. -/
def flavourTokens (s : String) : List String :=
  (splitOnPred (fun c => c == ',' || c == '/') s.data).map fun t => (⟨trimChars t⟩ : String)

/-- Python's `<` on strings: code-point lexicographic comparison of the
character lists. -/
def charListLt : List Char → List Char → Bool
  | _, [] => false
  | [], _ :: _ => true
  | a :: as, b :: bs =>
    if a < b then true
    else if b < a then false
    else charListLt as bs

/-- The matching `≤`: not strictly above. -/
def strLeB (a b : String) : Bool := !charListLt b.data a.data

/-- Insert into an ascending list, before the first element not below `x`. -/
def insertSorted (x : String) : List String → List String
  | [] => [x]
  | y :: ys => if strLeB x y then x :: y :: ys else y :: insertSorted x ys

/-- Insertion sort in the code-point order: on lists of distinct strings this
is exactly Python's `sorted`. -/
def sortStrings (l : List String) : List String := l.foldr insertSorted []

/-- `sorted(list(set(a) | set(b)))` of the source, as a list of strings. -/
def pySortedUnion (a b : List String) : List String :=
  sortStrings (a ++ b).dedup

/-- Source: `Command.clean_flavours`. When the dt is present but has no `<dd>`
sibling, the source's `raw_flavours_dd.text` dereferences `None` and raises
`AttributeError`: modelled as `.thrown`. When the summary span is absent the
source returns `None` even if the dt is present. -/
def clean_flavours (raw_flavours_dt : Option FlavoursDt) (raw_flavours_sub : Option String) :
    CleanResult String :=
  match raw_flavours_sub with
  | none => .sentinel
  | some subText =>
    match raw_flavours_dt with
    | none =>
      .ok (String.intercalate CSV_MULTIVAL_SEP (pySortedUnion [] (flavourTokens subText)))
    | some dt =>
      match dt.ddText with
      | none => .thrown
      | some ddText =>
        .ok (String.intercalate CSV_MULTIVAL_SEP
          (pySortedUnion (flavourTokens ddText) (flavourTokens subText)))

/-- One comma-separated volume token after the source's cleaning: `strip()`,
then every case-insensitive occurrence of "ml" removed. -/
def cleanVolToken (t : List Char) : String := ⟨stripLitCI "ml".data (trimChars t)⟩

/-- `re.split(',', text)` followed by the token cleaning of `clean_volumes`. -/
def volumeTokens (text : String) : List String :=
  (splitOnPred (· == ',') text.data).map cleanVolToken

/-- The validation loop of `clean_volumes`: scan tokens left to right; a token
`int()` rejects aborts the cleaner; a token above 10 marks the product as a
shortfill and `break`s, leaving the remaining tokens unvalidated. -/
def scanVolumes : List String → Option Bool
  | [] => some false
  | v :: rest =>
    match pyInt v with
    | none => none
    | some n => if n > 10 then some true else scanVolumes rest

/-- Source: `Command.clean_volumes`, on the text of the `bottleSize` div.
Returns the joined volume string and the shortfill flag, or `None, None`. -/
def clean_volumes (text : String) : CleanResult (String × Bool) :=
  if text.data.isEmpty then .sentinel
  else
    let toks := volumeTokens text
    match scanVolumes toks with
    | none => .sentinel
    | some short => .ok (String.intercalate CSV_MULTIVAL_SEP toks, short)

/-- `re.search(r'\d+', s)`: first run of digits. -/
def findDigits : List Char → Option (List Char)
  | [] => none
  | c :: rest =>
    if c.isDigit then some ((c :: rest).takeWhile Char.isDigit) else findDigits rest

/-- Source: `Command.clean_vg`, on the markup string of the `vg` div. -/
def clean_vg (raw : String) : Option String :=
  match findDigits raw.data with
  | none => none
  | some m => some ⟨m⟩

/-- Remove every case-insensitive occurrence of "mg"
(the `re.sub` of `clean_strengths`). -/
def stripMg (s : String) : String := ⟨stripLitCI "mg".data s.data⟩

/-- Source: `Command.clean_strengths`. The input is the list of texts of the
spans inside the `nicotineLevels` div; `find_all` returns a list, never
`None`, so the source's dead `is None` check is not modelled. -/
def clean_strengths (strengths_list : List String) : Option String :=
  let joined :=
    some (String.intercalate CSV_MULTIVAL_SEP (strengths_list.map stripMg))
  match strengths_list with
  | [s] =>
    let val := strLower s
    if strContains "shortfill" val then some "0"
    else if strContains "shot" val then none
    else joined
  | _ => joined

/-- Source: `Command.get_salt`, on the title text: `find('salt') != -1`. -/
def get_salt (text : String) : Bool :=
  containsSub "salt".data (lowerChars text.data)

/-- First match of `\d+(\.\d+)?`: at the first digit, the maximal digit run,
greedily extended by a fractional part when a dot and a digit follow. -/
def findNumber : List Char → Option (List Char)
  | [] => none
  | c :: rest =>
    if c.isDigit then
      let d := (c :: rest).takeWhile Char.isDigit
      match (c :: rest).drop d.length with
      | '.' :: r =>
        let f := r.takeWhile Char.isDigit
        if !f.isEmpty then some (d ++ '.' :: f) else some d
      | _ => some d
    else findNumber rest

/-- The inner `<span>` of the `reviewStars` span, as `find('span')` sees it:
`none` when absent; otherwise its optional `title` attribute. -/
structure StarsSpan where
  innerSpanTitle : Option (Option String)
deriving DecidableEq, Repr

/-- The `productReviewScore` div as `clean_ratings` reads it: the optional
`reviewStars` span and the text of `find('a', href='#reviews')` (`none` when
that anchor is absent). -/
structure ReviewScore where
  reviewStars : Option StarsSpan
  reviewsLinkText : Option String
deriving DecidableEq, Repr

/-- Source: `Command.clean_ratings`. The zero defaults are returned as the
strings "0" (the CSV writer stringifies the source's integer `0, 0`).
`.thrown` models the exceptions the source raises on malformed widgets:
`find('span')` returning `None` (`.get` on `None`), a missing `title`
attribute (`re.search` on `None`), and a missing reviews anchor (`.text` on
`None`) after a rating was parsed. -/
def clean_ratings (review_score : ReviewScore) : CleanResult (String × String) :=
  match review_score.reviewStars with
  | none => .ok ("0", "0")
  | some stars =>
    match stars.innerSpanTitle with
    | none => .thrown
    | some none => .thrown
    | some (some title) =>
      match findNumber title.data with
      | none => .ok ("0", "0")
      | some rating =>
        match review_score.reviewsLinkText with
        | none => .thrown
        | some linkText =>
          match findDigits linkText.data with
          | none => .ok ("0", "0")
          | some num => .ok (⟨rating⟩, ⟨num⟩)

/-! ## Sink and supplier loop -/

/-- Source: `Command.csv_append_row`, with the CSV file modelled as the list
of rows already written and the file write itself as succeeding. A row with
fewer fields than the header is refused and the file left unchanged; any
other row is appended verbatim. -/
def csv_append_row (file : List (List String)) (item_list : List String) :
    List (List String) :=
  if item_list.length < CSV_HEADERS.length then file else file ++ [item_list]

/-- Outcome of `start_scrape` for one supplier: whether the crawl
(`access_page_products_list`) was entered, and the value of `self.csv_path`
during it — the file `csv_append_row` would write that supplier's rows to. -/
structure SupplierOutcome where
  crawled : Bool
  sinkPath : Option String
deriving DecidableEq, Repr

/-- Source: `Command.create_csv`. On success it sets `self.csv_path` to the
fresh path; on an open error it logs and returns — leaving `self.csv_path`
unchanged. `st` is the current `self.csv_path`, `openOk` whether
`open(csv_path, 'w')` succeeds for this supplier's fresh file. -/
def create_csv (st : Option String) (openOk : Bool) (path : String) : Option String :=
  if openOk then some path else st

/-- Source: `Command.start_scrape`: run `create_csv`, abort when
`self.csv_path is None`, otherwise enter `access_page_products_list`. -/
def start_scrape (st : Option String) (openOk : Bool) (path : String) :
    Option String × SupplierOutcome :=
  match create_csv st openOk path with
  | none => (none, ⟨false, none⟩)
  | some p => (some p, ⟨true, some p⟩)

/-- Source: the supplier loop of `Command.handle`, threading the mutable
`self.csv_path` (initialised to `None` in `__init__`) through the suppliers.
Each element gives (whether this supplier's CSV creation succeeds, the fresh
CSV path for this supplier). Unknown supplier names and failed start-URL
requests `continue` before `start_scrape` is reached and are not modelled. -/
def handleSuppliers : Option String → List (Bool × String) → List SupplierOutcome
  | _, [] => []
  | st, (ok, path) :: rest =>
    let r := start_scrape st ok path
    r.2 :: handleSuppliers r.1 rest

/-! ## Crawl controller -/

/-- One listing page as `access_page_products_list` consumes it: the outcome
of each `productGridItem` (some row when `should_visit` accepted it and
`scrape_product` extracted and appended a row; `none` when the entry was
filtered out or any of its fetch / extraction steps failed and
`scrape_product` returned early), and whether an `ajaxAltNext page-link`
anchor exists. -/
structure ListingPage where
  entries : List (Option (List String))
  nextLink : Bool
deriving DecidableEq, Repr

/-- Source: `Command.access_page_products_list`, with the supplier's
successive listing-page fetches given in order: `none` is a failed fetch
(`try_request` returned `None`, ending the whole supplier crawl). Returns the
rows appended to the CSV, in order. A page with an empty product grid returns
immediately; a page without a next link ends the crawl after its entries. -/
def access_page_products_list : List (Option ListingPage) → List (List String)
  | [] => []
  | none :: _ => []
  | some page :: rest =>
    if page.entries.isEmpty then []
    else
      page.entries.filterMap id ++
        (if page.nextLink then access_page_products_list rest else [])

/-! ## Definitions following the spec's words, for comparison -/

/-- Follows the spec's words for the multi-valued output fields: "a single
string with a reserved separator character (`/`) joining the sorted unique
values". -/
def specSortedUniqueJoin (values : List String) : String :=
  String.intercalate "/" (sortStrings values.dedup)

/-- Follows the spec's words "the word \"by\"" (the regex `\bby\b` reading):
is there an occurrence of "by", case-insensitively, with no word character
(letter, digit or underscore) adjacent on either side? -/
def isWordChar (c : Char) : Bool := c.isAlphanum || c == '_'

/-- Scan for a standalone word "by" in a lowercased character list, carrying
the previous character. -/
def hasWordByAux : List Char → Option Char → Bool
  | b :: y :: rest, prev =>
    (b == 'b' && y == 'y' &&
      (match prev with | none => true | some p => !isWordChar p) &&
      (match rest with | [] => true | c :: _ => !isWordChar c))
    || hasWordByAux (y :: rest) (some b)
  | _, _ => false

/-- "by" occurs in `s` as a standalone word (case-insensitive). -/
def hasWordBy (s : String) : Bool := hasWordByAux (lowerChars s.data) none

/-- Declarative abort condition of the volume scan: the token list splits as
`pre ++ x :: suf` where `x` fails `int()` and every token of `pre` parses to
a value of at most 10 (so the scan reaches `x` without `break`ing). -/
def scanAbortsP (ts : List String) : Prop :=
  ∃ pre x suf, ts = pre ++ x :: suf ∧ pyInt x = none ∧
    ∀ y ∈ pre, ∃ n : Int, pyInt y = some n ∧ n ≤ 10

/-! ## Helper lemmas -/

theorem scanVolumes_eq_none_iff (ts : List String) :
    scanVolumes ts = none ↔ scanAbortsP ts := by
  induction ts with
  | nil =>
    simp only [scanVolumes, scanAbortsP]
    constructor
    · intro h; cases h
    · rintro ⟨pre, x, suf, h, -, -⟩
      exact absurd h (by simp)
  | cons v rest ih =>
    cases hv : pyInt v with
    | none =>
      have hs : scanVolumes (v :: rest) = none := by simp [scanVolumes, hv]
      rw [hs]
      simp only [true_iff]
      exact ⟨[], v, rest, rfl, hv, by simp⟩
    | some n =>
      have hs : scanVolumes (v :: rest) = if n > 10 then some true else scanVolumes rest := by
        simp [scanVolumes, hv]
      rw [hs]
      by_cases hn : n > 10
      · rw [if_pos hn]
        constructor
        · intro h; cases h
        · rintro ⟨pre, x, suf, heq, hx, hpre⟩
          cases pre with
          | nil =>
            simp only [List.nil_append, List.cons.injEq] at heq
            rw [← heq.1, hv] at hx
            cases hx
          | cons p ps =>
            simp only [List.cons_append, List.cons.injEq] at heq
            obtain ⟨m, hm, hmle⟩ := hpre p (by simp)
            rw [← heq.1, hv] at hm
            injection hm with hnm
            omega
      · rw [if_neg hn, ih]
        constructor
        · rintro ⟨pre, x, suf, heq, hx, hpre⟩
          refine ⟨v :: pre, x, suf, by rw [heq]; rfl, hx, ?_⟩
          intro y hy
          rcases List.mem_cons.mp hy with h | h
          · exact ⟨n, h ▸ hv, by omega⟩
          · exact hpre y h
        · rintro ⟨pre, x, suf, heq, hx, hpre⟩
          cases pre with
          | nil =>
            simp only [List.nil_append, List.cons.injEq] at heq
            rw [← heq.1, hv] at hx
            cases hx
          | cons p ps =>
            simp only [List.cons_append, List.cons.injEq] at heq
            exact ⟨ps, x, suf, heq.2, hx, fun y hy => hpre y (by simp [hy])⟩

theorem rfindAux_spec (n h : List Char) : ∀ k,
    (rfindAux n h k = none ↔ ∀ i, i < k → ¬n.isPrefixOf (h.drop i) = true) ∧
    (∀ m, rfindAux n h k = some m → m < k ∧ n.isPrefixOf (h.drop m) = true ∧
      ∀ j, m < j → j < k → ¬n.isPrefixOf (h.drop j) = true) := by
  intro k
  induction k with
  | zero =>
    constructor
    · simp [rfindAux]
    · intro m hm; simp [rfindAux] at hm
  | succ k ih =>
    have hstep : rfindAux n h (k + 1) =
        if n.isPrefixOf (h.drop k) then some k else rfindAux n h k := by
      unfold rfindAux
      rw [List.range_succ, List.foldl_append]
      rfl
    by_cases hk : n.isPrefixOf (h.drop k) = true
    · rw [hstep, if_pos hk]
      constructor
      · constructor
        · intro hcontr; cases hcontr
        · intro hall; exact absurd hk (hall k (Nat.lt_succ_self k))
      · intro m hm
        cases hm
        exact ⟨Nat.lt_succ_self k, hk, fun j hj hjk => by omega⟩
    · rw [hstep, if_neg hk]
      constructor
      · rw [ih.1]
        constructor
        · intro hall i hi
          rcases Nat.lt_succ_iff_lt_or_eq.mp hi with hlt | heq
          · exact hall i hlt
          · subst heq; exact hk
        · intro hall i hi; exact hall i (Nat.lt_succ_of_lt hi)
      · intro m hm
        obtain ⟨hmk, hpref, hmax⟩ := ih.2 m hm
        refine ⟨Nat.lt_succ_of_lt hmk, hpref, ?_⟩
        intro j hj hjk
        rcases Nat.lt_succ_iff_lt_or_eq.mp hjk with hlt | heq
        · exact hmax j hj hlt
        · subst heq; exact hk

theorem rfindSub_none_iff (n h : List Char) :
    rfindSub n h = none ↔ ∀ i, i ≤ h.length → ¬n.isPrefixOf (h.drop i) = true := by
  unfold rfindSub
  rw [(rfindAux_spec n h (h.length + 1)).1]
  constructor
  · intro hall i hi; exact hall i (by omega)
  · intro hall i hi; exact hall i (by omega)

theorem rfindSub_some (n h : List Char) (m : Nat) (hm : rfindSub n h = some m) :
    m ≤ h.length ∧ n.isPrefixOf (h.drop m) = true ∧
      ∀ j, m < j → j ≤ h.length → ¬n.isPrefixOf (h.drop j) = true := by
  obtain ⟨h1, h2, h3⟩ := (rfindAux_spec n h (h.length + 1)).2 m hm
  exact ⟨by omega, h2, fun j hj hjl => h3 j hj (by omega)⟩

theorem charListLt_iff : ∀ a b : List Char, charListLt a b = true ↔ a < b
  | a, [] => by
    constructor
    · intro h
      rw [show charListLt a [] = false from by cases a <;> rfl] at h
      cases h
    · intro h; nomatch h
  | [], b :: bs => by
    constructor
    · intro _; exact List.Lex.nil
    · intro _; rfl
  | a :: as, b :: bs => by
    by_cases hab : a < b
    · rw [show charListLt (a :: as) (b :: bs) = true from by simp [charListLt, hab]]
      simp only [true_iff]
      exact List.Lex.rel hab
    · by_cases hba : b < a
      · rw [show charListLt (a :: as) (b :: bs) = false from by
          simp [charListLt, hab, hba]]
        constructor
        · intro h; cases h
        · intro h
          cases h with
          | rel h1 => exact absurd h1 hab
          | cons h1 => exact absurd hba (lt_irrefl a)
      · have heq : a = b := le_antisymm (le_of_not_lt hba) (le_of_not_lt hab)
        subst heq
        rw [show charListLt (a :: as) (a :: bs) = charListLt as bs from by
          simp [charListLt, lt_irrefl]]
        rw [charListLt_iff as bs]
        constructor
        · intro h; exact List.Lex.cons h
        · intro h
          cases h with
          | rel h1 => exact absurd h1 (lt_irrefl a)
          | cons h1 => exact h1

theorem strLeB_iff (a b : String) : strLeB a b = true ↔ a ≤ b := by
  have h1 : charListLt b.data a.data = true ↔ b < a :=
    (charListLt_iff b.data a.data).trans String.lt_iff_toList_lt.symm
  constructor
  · intro h
    rw [← not_lt]
    intro hc
    rw [strLeB, h1.mpr hc] at h
    simp at h
  · intro h
    rw [strLeB]
    have h2 : charListLt b.data a.data = false := by
      cases hc : charListLt b.data a.data
      · rfl
      · exact absurd (h1.mp hc) (not_lt.mpr h)
    rw [h2]
    rfl

theorem insertSorted_perm (x : String) (l : List String) :
    List.Perm (insertSorted x l) (x :: l) := by
  induction l with
  | nil => exact List.Perm.refl _
  | cons y ys ih =>
    rw [insertSorted]
    by_cases h : strLeB x y = true
    · rw [if_pos h]
    · rw [if_neg h]
      exact (List.Perm.cons y ih).trans (List.Perm.swap x y ys)

theorem sortStrings_perm (l : List String) : List.Perm (sortStrings l) l := by
  induction l with
  | nil => exact List.Perm.refl _
  | cons x xs ih =>
    exact (insertSorted_perm x (sortStrings xs)).trans (List.Perm.cons x ih)

theorem insertSorted_sorted (x : String) (l : List String)
    (h : l.Sorted (· ≤ ·)) : (insertSorted x l).Sorted (· ≤ ·) := by
  induction l with
  | nil => simp [insertSorted]
  | cons y ys ih =>
    rw [insertSorted]
    by_cases hxy : strLeB x y = true
    · rw [if_pos hxy]
      rw [List.sorted_cons]
      refine ⟨?_, h⟩
      intro b hb
      rcases List.mem_cons.mp hb with rfl | hb2
      · exact (strLeB_iff x b).mp hxy
      · exact le_trans ((strLeB_iff x y).mp hxy) ((List.sorted_cons.mp h).1 b hb2)
    · rw [if_neg hxy]
      rw [List.sorted_cons] at h ⊢
      refine ⟨?_, ih h.2⟩
      intro b hb
      have hmem := (insertSorted_perm x ys).mem_iff.mp hb
      rcases List.mem_cons.mp hmem with rfl | hb2
      · exact le_of_not_le fun hc => hxy ((strLeB_iff b y).mpr hc)
      · exact h.1 b hb2

theorem sortStrings_sorted (l : List String) : (sortStrings l).Sorted (· ≤ ·) := by
  induction l with
  | nil => simp [sortStrings]
  | cons x xs ih => exact insertSorted_sorted x (sortStrings xs) ih

theorem pySortedUnion_sorted (a b : List String) :
    (pySortedUnion a b).Sorted (· ≤ ·) :=
  sortStrings_sorted _

theorem pySortedUnion_nodup (a b : List String) : (pySortedUnion a b).Nodup :=
  (sortStrings_perm _).nodup_iff.mpr (List.nodup_dedup _)

theorem pySortedUnion_mem (a b : List String) (s : String) :
    s ∈ pySortedUnion a b ↔ s ∈ a ∨ s ∈ b := by
  unfold pySortedUnion
  rw [(sortStrings_perm _).mem_iff, List.mem_dedup, List.mem_append]

theorem byOccur_le (l : List Char) (i : Nat)
    (h : List.isPrefixOf "by".data (l.drop i) = true) : i ≤ l.length := by
  by_contra hc
  push_neg at hc
  rw [List.drop_eq_nil_of_le (by omega)] at h
  exact absurd h (by decide)

/-! ## The claims -/

/-- C1 counterexample: for the bottleSize text "50ml, 10ml" the emitted
volumes field is "50/10" — the cleaned values in page order — not the sorted
unique join "10/50" that the claim requires of every multi-valued field. -/
theorem c1_counterexample :
    clean_volumes "50ml, 10ml" = .ok ("50/10", true) ∧
    volumeTokens "50ml, 10ml" = ["50", "10"] ∧
    specSortedUniqueJoin ["50", "10"] = "10/50" ∧
    ("50/10" : String) ≠ "10/50" := by decide

/-- C1 (amended): the flavours field is the sorted unique join of the cleaned
values, but the volumes and strengths fields join the cleaned values in
source order, without deduplication or sorting. -/
theorem c1_multival_serialization :
    (∀ dd sub, clean_flavours (some ⟨some dd⟩) (some sub) =
      .ok (specSortedUniqueJoin (flavourTokens dd ++ flavourTokens sub))) ∧
    (∀ sub, clean_flavours none (some sub) =
      .ok (specSortedUniqueJoin (flavourTokens sub))) ∧
    (∀ text v short, clean_volumes text = .ok (v, short) →
      v = String.intercalate "/" (volumeTokens text)) ∧
    (∀ l, l.length ≠ 1 →
      clean_strengths l = some (String.intercalate "/" (l.map stripMg))) := by
  refine ⟨fun dd sub => rfl, fun sub => rfl, ?_, ?_⟩
  · intro text v short h
    by_cases he : text.data.isEmpty
    · rw [show clean_volumes text = .sentinel from by simp [clean_volumes, he]] at h
      cases h
    · cases hscan : scanVolumes (volumeTokens text) with
      | none =>
        rw [show clean_volumes text = .sentinel from by
          simp [clean_volumes, he, hscan]] at h
        cases h
      | some b =>
        rw [show clean_volumes text =
            .ok (String.intercalate CSV_MULTIVAL_SEP (volumeTokens text), b) from by
          simp [clean_volumes, he, hscan]] at h
        rw [CleanResult.ok.injEq, Prod.mk.injEq] at h
        exact h.1.symm
  · intro l h
    rcases l with _ | ⟨a, _ | ⟨b, t⟩⟩
    · rfl
    · exact absurd rfl h
    · rfl

/-- C1 witness: the amended statement at concrete inputs. -/
theorem c1_witness :
    clean_flavours (some ⟨some "Lemon, Pastry"⟩) (some "pastry/vanilla") =
      .ok (specSortedUniqueJoin
        (flavourTokens "Lemon, Pastry" ++ flavourTokens "pastry/vanilla")) ∧
    ("50/10" : String) = String.intercalate "/" (volumeTokens "50ml, 10ml") ∧
    clean_strengths ["3mg", "6mg"] =
      some (String.intercalate "/" (["3mg", "6mg"].map stripMg)) :=
  ⟨c1_multival_serialization.1 "Lemon, Pastry" "pastry/vanilla",
   c1_multival_serialization.2.2.1 "50ml, 10ml" "50/10" true (by decide),
   c1_multival_serialization.2.2.2 ["3mg", "6mg"] (by decide)⟩

/-- C2 counterexample: with the flavours dt present but missing its dd
sibling and the summary span present, `clean_flavours` raises — the source
dereferences the `None` returned by `find_next_sibling` — rather than
returning a value or the failure sentinel. -/
theorem c2_counterexample :
    clean_flavours (some ⟨none⟩) (some "Berry") = .thrown ∧
    (CleanResult.thrown : CleanResult String) ≠ .sentinel ∧
    (CleanResult.thrown : CleanResult String) ≠ .ok "Berry" := by decide

/-- C2 (amended): `clean_flavours` raises exactly when the summary span is
present and the dt is present without a dd sibling; `clean_ratings` raises
exactly when the stars span is present but lacks an inner span or a title
attribute, or when a rating was parsed and the reviews anchor is absent. The
remaining cleaners are total functions into a value or the sentinel. -/
theorem c2_cleaner_exceptions :
    (∀ dt sub, clean_flavours dt sub = .thrown ↔ dt = some ⟨none⟩ ∧ sub ≠ none) ∧
    (∀ rs : ReviewScore, clean_ratings rs = .thrown ↔
      ∃ stars, rs.reviewStars = some stars ∧
        (stars.innerSpanTitle = none ∨ stars.innerSpanTitle = some none ∨
          ∃ t, stars.innerSpanTitle = some (some t) ∧
            (findNumber t.data).isSome = true ∧ rs.reviewsLinkText = none)) := by
  constructor
  · rintro (_ | ⟨_ | dd⟩) (_ | s) <;> simp [clean_flavours]
  · rintro ⟨stars, link⟩
    cases stars with
    | none => simp [clean_ratings]
    | some st =>
      obtain ⟨ist⟩ := st
      cases ist with
      | none => simp [clean_ratings]
      | some ot =>
        cases ot with
        | none => simp [clean_ratings]
        | some t =>
          cases hn : findNumber t.data with
          | none => simp [clean_ratings, hn]
          | some r =>
            cases link with
            | none => simp [clean_ratings, hn]
            | some lt2 =>
              cases hd : findDigits lt2.data with
              | none => simp [clean_ratings, hn, hd]
              | some d => simp [clean_ratings, hn, hd]

/-- C3 counterexample: "50ml, oops" contains the non-numeric token "oops",
yet volume cleaning succeeds with ("50/oops", true): the loop breaks at
50 > 10 before ever validating "oops". -/
theorem c3_counterexample :
    clean_volumes "50ml, oops" = .ok ("50/oops", true) ∧
    ("oops" ∈ volumeTokens "50ml, oops") ∧
    pyInt "oops" = none ∧
    clean_volumes "50ml, oops" ≠ .sentinel := by decide

/-- C3 (amended): volume cleaning fails exactly when the text is empty or,
scanning the cleaned comma-separated tokens left to right, a token that
fails integer parsing is reached before any token whose value exceeds 10
(tokens after the first value above 10 are never validated). -/
theorem c3_volume_failure_condition (text : String) :
    clean_volumes text = .sentinel ↔ text = "" ∨ scanAbortsP (volumeTokens text) := by
  by_cases he : text.data.isEmpty
  · have ht : text = "" := by
      obtain ⟨d⟩ := text
      cases d with
      | nil => rfl
      | cons c cs => simp [List.isEmpty] at he
    rw [show clean_volumes text = .sentinel from by simp [clean_volumes, he]]
    simp [ht]
  · have ht : ¬text = "" := by
      intro hc
      apply he
      rw [hc]
      decide
    cases hscan : scanVolumes (volumeTokens text) with
    | none =>
      rw [show clean_volumes text = .sentinel from by simp [clean_volumes, he, hscan]]
      simp only [true_iff]
      exact Or.inr ((scanVolumes_eq_none_iff _).mp hscan)
    | some b =>
      rw [show clean_volumes text =
          .ok (String.intercalate CSV_MULTIVAL_SEP (volumeTokens text), b) from by
        simp [clean_volumes, he, hscan]]
      constructor
      · intro h; cases h
      · rintro (hc | hc)
        · exact absurd hc ht
        · rw [← scanVolumes_eq_none_iff, hscan] at hc
          cases hc

/-- C4 counterexample: with the flavours detail list present ("Lemon") and
the summary span absent, the cleaner fails instead of returning the union of
the one present source, as the claim requires. -/
theorem c4_counterexample :
    clean_flavours (some ⟨some "Lemon"⟩) none = .sentinel ∧
    (CleanResult.sentinel : CleanResult String) ≠ .ok "Lemon" := by decide

/-- C4 (amended): flavour cleaning fails exactly when the summary span is
absent — even when the detail list is present (the extractor cancels earlier
only when both are absent); when the summary span is present and a present dt
has its dd sibling, the result joins the deduplicated, code-point-sorted
union of the split and trimmed tokens with "/". -/
theorem c4_flavours_failure_condition :
    (∀ dt sub, clean_flavours dt sub = .sentinel ↔ sub = none) ∧
    (∀ dd sub, clean_flavours (some ⟨some dd⟩) (some sub) =
      .ok (String.intercalate "/" (pySortedUnion (flavourTokens dd) (flavourTokens sub)))) ∧
    (∀ a b : List String, (pySortedUnion a b).Sorted (· ≤ ·) ∧
      (pySortedUnion a b).Nodup ∧
      ∀ s, s ∈ pySortedUnion a b ↔ s ∈ a ∨ s ∈ b) := by
  refine ⟨?_, fun dd sub => rfl, ?_⟩
  · rintro (_ | ⟨_ | dd⟩) (_ | s) <;> simp [clean_flavours]
  · intro a b
    exact ⟨pySortedUnion_sorted a b, pySortedUnion_nodup a b, pySortedUnion_mem a b⟩

/-- C5 counterexample: "Baby Blue" contains no standalone word "by", yet name
and brand cleaning does not fail — it splits inside "Baby" at the last
occurrence of the substring "by" and returns ("Ba", "Blue"). -/
theorem c5_counterexample :
    hasWordBy "Baby Blue" = false ∧
    clean_name_brand "Baby Blue" = some ("Ba", "Blue") ∧
    clean_name_brand "Baby Blue" ≠ none := by decide

/-- C5 (amended): name and brand cleaning splits the title at the last
occurrence of the substring "by" in the lowercased title — not necessarily a
standalone word — failing exactly when no such substring occurs; each half
then has the configured noise patterns removed and whitespace collapsed. -/
theorem c5_name_brand_split (title : String) :
    (clean_name_brand title = none ↔
      ∀ i, i ≤ title.data.length →
        ¬List.isPrefixOf "by".data ((lowerChars title.data).drop i) = true) ∧
    (∀ i, List.isPrefixOf "by".data ((lowerChars title.data).drop i) = true →
      (∀ j, j ≤ title.data.length →
        List.isPrefixOf "by".data ((lowerChars title.data).drop j) = true → j ≤ i) →
      clean_name_brand title = some
        (collapseSpaces (applyRemoveCriteria REMOVE_RAW_NAME (title.data.take i)),
         collapseSpaces (applyRemoveCriteria REMOVE_RAW_BRAND (title.data.drop (i + 2))))) := by
  have hlen : (lowerChars title.data).length = title.data.length := List.length_map _ _
  constructor
  · cases hr : rfindSub "by".data (lowerChars title.data) with
    | none =>
      rw [show clean_name_brand title = none from by simp [clean_name_brand, hr]]
      simp only [true_iff]
      intro i hi
      exact (rfindSub_none_iff _ _).mp hr i (by rw [hlen]; exact hi)
    | some m =>
      have hsome : clean_name_brand title ≠ none := by simp [clean_name_brand, hr]
      obtain ⟨hm_le, hm_occ, -⟩ := rfindSub_some _ _ _ hr
      exact iff_of_false hsome fun hall =>
        hall m (by rw [← hlen]; exact hm_le) hm_occ
  · intro i hocc hmax
    cases hr : rfindSub "by".data (lowerChars title.data) with
    | none =>
      exact absurd hocc ((rfindSub_none_iff _ _).mp hr i (byOccur_le _ _ hocc))
    | some m =>
      obtain ⟨hm_le, hm_occ, hm_max⟩ := rfindSub_some _ _ _ hr
      have h1 : m ≤ i := hmax m (by rw [← hlen]; exact hm_le) hm_occ
      have h2 : i ≤ m := by
        by_contra hc
        push_neg at hc
        exact hm_max i hc (byOccur_le _ _ hocc) hocc
      have heq : m = i := le_antisymm h1 h2
      subst heq
      simp [clean_name_brand, hr]

/-- C5 witness: the split at the last "by" of the spec's own example. -/
theorem c5_witness :
    clean_name_brand "Lemon Tart 10ml E-Liquid by Dinner Lady" =
      some ("Lemon Tart", "Dinner Lady") := by
  have h := (c5_name_brand_split "Lemon Tart 10ml E-Liquid by Dinner Lady").2 25
    (by decide) (by decide)
  rw [h]
  decide

/-- C6: with two suppliers, the first CSV creation succeeding and the second
failing, the stale `csv_path` left over from the first supplier defeats the
`is None` guard of `start_scrape`: the second supplier's crawl proceeds
anyway, and its rows are appended to the FIRST supplier's file. With a single
supplier the guard works as the claim states. -/
theorem c6_stale_csv_path :
    handleSuppliers none [(true, "a--vapeclub.csv"), (false, "b--badurl.csv")] =
      [⟨true, some "a--vapeclub.csv"⟩, ⟨true, some "a--vapeclub.csv"⟩] ∧
    handleSuppliers none [(false, "b--badurl.csv")] = [⟨false, none⟩] ∧
    (⟨true, some "a--vapeclub.csv"⟩ : SupplierOutcome) ≠ ⟨false, none⟩ := by decide

/-- C7: a failed product entry contributes no row but never stops the crawl —
the remaining entries of its page and all later pages are still processed —
while a failed listing-page fetch ends the supplier crawl: every page after
it is ignored. -/
theorem c7_crawl_failure_scopes :
    (∀ (pre post : List (Option (List String))) (nxt : Bool)
        (rest : List (Option ListingPage)),
      access_page_products_list (some ⟨pre ++ none :: post, nxt⟩ :: rest) =
        pre.filterMap id ++ post.filterMap id ++
          (if nxt then access_page_products_list rest else [])) ∧
    (∀ front back,
      (∀ p ∈ front, ∃ q : ListingPage, p = some q ∧ q.entries ≠ [] ∧ q.nextLink = true) →
      access_page_products_list (front ++ none :: back) =
        access_page_products_list (front ++ [none])) := by
  constructor
  · intro pre post nxt rest
    have hne : (pre ++ none :: post).isEmpty = false := by cases pre <;> rfl
    simp [access_page_products_list, hne, List.filterMap_append, List.append_assoc]
  · intro front back h
    induction front with
    | nil => rfl
    | cons p front ih =>
      obtain ⟨q, hp, hqe, hqn⟩ := h p (List.mem_cons_self p front)
      subst hp
      have hne : q.entries.isEmpty = false := by
        cases hq : q.entries with
        | nil => exact absurd hq hqe
        | cons a t => rfl
      have hstep : ∀ rest, access_page_products_list (some q :: rest) =
          q.entries.filterMap id ++ access_page_products_list rest := by
        intro rest
        simp [access_page_products_list, hne, hqn]
      rw [List.cons_append, List.cons_append, hstep, hstep,
        ih fun r hr => h r (List.mem_cons_of_mem _ hr)]

/-- C7 witness: the two failure scopes at concrete two-page sites. -/
theorem c7_witness :
    access_page_products_list
        ([some ⟨[some ["r1"]], true⟩] ++ none :: [some ⟨[some ["r2"]], true⟩]) =
      access_page_products_list ([some ⟨[some ["r1"]], true⟩] ++ [none]) ∧
    access_page_products_list [some ⟨[] ++ none :: [some ["r1"]], true⟩, none] =
      [].filterMap id ++ [some ["r1"]].filterMap id ++
        (if true then access_page_products_list [none] else []) := by
  constructor
  · refine c7_crawl_failure_scopes.2 [some ⟨[some ["r1"]], true⟩]
      [some ⟨[some ["r2"]], true⟩] ?_
    intro p hp
    rw [List.mem_singleton] at hp
    subst hp
    exact ⟨⟨[some ["r1"]], true⟩, rfl, List.cons_ne_nil _ _, rfl⟩
  · exact c7_crawl_failure_scopes.1 [] [some ["r1"]] true [none]

/-- C8: the if/elif chain of strength cleaning — a single label mentioning
"shortfill" yields "0"; a single label mentioning "shot" (and not
"shortfill") fails; otherwise the "mg" units are stripped from every label
and the labels joined with "/", so that ["3mg", "6mg"] yields "3/6". -/
theorem c8_clean_strengths_cases :
    (∀ s, strContains "shortfill" (strLower s) = true →
      clean_strengths [s] = some "0") ∧
    (∀ s, strContains "shortfill" (strLower s) = false →
      strContains "shot" (strLower s) = true → clean_strengths [s] = none) ∧
    (∀ s, strContains "shortfill" (strLower s) = false →
      strContains "shot" (strLower s) = false →
      clean_strengths [s] = some (stripMg s)) ∧
    (∀ l, l.length ≠ 1 →
      clean_strengths l = some (String.intercalate CSV_MULTIVAL_SEP (l.map stripMg))) ∧
    clean_strengths ["3mg", "6mg"] = some "3/6" := by
  refine ⟨?_, ?_, ?_, ?_, by decide⟩
  · intro s h; simp [clean_strengths, h]
  · intro s h1 h2; simp [clean_strengths, h1, h2]
  · intro s h1 h2
    simp only [clean_strengths, h1, h2, Bool.false_eq_true, if_false]
    rfl
  · intro l h
    rcases l with _ | ⟨a, _ | ⟨b, t⟩⟩
    · rfl
    · exact absurd rfl h
    · rfl

/-- C8 witness: the three branches at the spec's example labels. -/
theorem c8_witness :
    clean_strengths ["Shortfill"] = some "0" ∧
    clean_strengths ["Nicotine Shot"] = none ∧
    clean_strengths ["3mg", "6mg"] =
      some (String.intercalate CSV_MULTIVAL_SEP (["3mg", "6mg"].map stripMg)) :=
  ⟨c8_clean_strengths_cases.1 "Shortfill" (by decide),
   c8_clean_strengths_cases.2.1 "Nicotine Shot" (by decide) (by decide),
   c8_clean_strengths_cases.2.2.2.1 ["3mg", "6mg"] (by decide)⟩

/-- C9 counterexample: on detail list "Lemon, Pastry" and summary
"pastry/vanilla" the cleaner returns "Lemon/Pastry/pastry/vanilla" — no
lowercasing happens anywhere in `clean_flavours`, so the claimed
"lemon/pastry/vanilla" is not the output. -/
theorem c9_counterexample :
    clean_flavours (some ⟨some "Lemon, Pastry"⟩) (some "pastry/vanilla") =
      .ok "Lemon/Pastry/pastry/vanilla" ∧
    ("Lemon/Pastry/pastry/vanilla" : String) ≠ "lemon/pastry/vanilla" := by decide

/-- C9 (amended): the flavour union keeps the original case of each token and
sorts in code-point order (uppercase before lowercase), so detail list
"Lemon, Pastry" with summary "pastry/vanilla" yields
"Lemon/Pastry/pastry/vanilla". -/
theorem c9_flavours_example :
    clean_flavours (some ⟨some "Lemon, Pastry"⟩) (some "pastry/vanilla") =
      .ok "Lemon/Pastry/pastry/vanilla" := by decide

/-- C10: the sink's length validation is one-directional — a row shorter than
the 13-column header is refused and the file left unchanged, while any row
with 13 or more fields (also more than 13) is appended exactly as given. -/
theorem c10_append_row_length_check :
    CSV_HEADERS.length = 13 ∧
    (∀ file row, row.length < 13 → csv_append_row file row = file) ∧
    (∀ file row, 13 ≤ row.length → csv_append_row file row = file ++ [row]) := by
  refine ⟨rfl, ?_, ?_⟩
  · intro file row h
    have h13 : row.length < CSV_HEADERS.length := by
      rw [show CSV_HEADERS.length = 13 from rfl]; exact h
    unfold csv_append_row
    rw [if_pos h13]
  · intro file row h
    have h13 : ¬row.length < CSV_HEADERS.length := by
      rw [show CSV_HEADERS.length = 13 from rfl]; omega
    unfold csv_append_row
    rw [if_neg h13]

/-- C10 witness: a 12-field row is refused, a 14-field row appended as is. -/
theorem c10_witness :
    csv_append_row [] ["a", "b", "c", "d", "e", "f", "g", "h", "i", "j", "k", "l"] = [] ∧
    csv_append_row []
        ["a", "b", "c", "d", "e", "f", "g", "h", "i", "j", "k", "l", "m", "n"] =
      [] ++ [["a", "b", "c", "d", "e", "f", "g", "h", "i", "j", "k", "l", "m", "n"]] :=
  ⟨c10_append_row_length_check.2.1 [] _ (by decide),
   c10_append_row_length_check.2.2 [] _ (by decide)⟩

end Scrape
